import Mathlib

/-!
Verification development for the imdb_renamer repository
(src/main.py and src/country_shortener.py), shallowly embedded in Lean.

Python strings are modelled as Lean `String`/`List Char`.  The scope of the
character-class primitives is documented on each definition: `str.isalnum`
and `str.lower` are modelled on their ASCII behaviour, while the Python
whitespace class (used by `str.split`, `str.strip` and the regex class
`\s`) is modelled on the full Unicode whitespace set.  Regular-expression
matching (`re.match` with greedy `.*`/`\s+`) is embedded as explicit
backtracking matchers that try the longest consumption first, exactly as
the `re` engine does for these patterns.  File, network and terminal I/O
are modelled as explicit function parameters.
-/

deriving instance DecidableEq for Except

/-- The Unicode whitespace characters recognised by Python `str.isspace`,
`str.split()`, `str.strip()` and the regex class `\s`. -/
def pySpaceChars : List Char :=
  [' ', '\t', '\n', '\r', Char.ofNat 11, Char.ofNat 12,
   Char.ofNat 28, Char.ofNat 29, Char.ofNat 30, Char.ofNat 31,
   Char.ofNat 133, Char.ofNat 160, Char.ofNat 0x1680,
   Char.ofNat 0x2000, Char.ofNat 0x2001, Char.ofNat 0x2002, Char.ofNat 0x2003,
   Char.ofNat 0x2004, Char.ofNat 0x2005, Char.ofNat 0x2006, Char.ofNat 0x2007,
   Char.ofNat 0x2008, Char.ofNat 0x2009, Char.ofNat 0x200a,
   Char.ofNat 0x2028, Char.ofNat 0x2029, Char.ofNat 0x202f,
   Char.ofNat 0x205f, Char.ofNat 0x3000]

/-- Python whitespace predicate: the character set matched by `str.isspace`,
`str.split()`, `str.strip()` and the regex class `\s` (Unicode mode). -/
def pyIsSpace (c : Char) : Bool :=
  pySpaceChars.contains c

/-- Python `str.isalnum`, modelled on its ASCII behaviour (letters and
digits); non-ASCII alphanumerics are out of the modelled alphabet. -/
def pyIsAlnum (c : Char) : Bool :=
  c.isAlphanum

/-- Python `str.strip()` on a character list: drop leading and trailing
whitespace. -/
def pyStrip (l : List Char) : List Char :=
  ((l.dropWhile pyIsSpace).reverse.dropWhile pyIsSpace).reverse

/-- Python `str.strip()` on strings. -/
def pyStripS (s : String) : String :=
  String.mk (pyStrip s.data)

/-- Python `str.lower()`, modelled on its ASCII behaviour. -/
def pyLowerS (s : String) : String :=
  String.mk (s.data.map Char.toLower)

/-- Helper for `pySplitWs`: accumulate the current token (reversed). -/
def pySplitWsAux (cur : List Char) : List Char → List (List Char)
  | [] => if cur.isEmpty then [] else [cur.reverse]
  | c :: rest =>
    if pyIsSpace c then
      if cur.isEmpty then pySplitWsAux [] rest
      else cur.reverse :: pySplitWsAux [] rest
    else pySplitWsAux (c :: cur) rest

/-- Python `str.split()` with no argument: split on whitespace runs,
discarding empty tokens. -/
def pySplitWs (l : List Char) : List (List Char) :=
  pySplitWsAux [] l

/-- Python `str.split(sep)` for a one-character separator: split on every
occurrence, keeping empty pieces (so the result is never empty). -/
def splitOnChar (sep : Char) : List Char → List (List Char)
  | [] => [[]]
  | c :: rest =>
    let r := splitOnChar sep rest
    if c == sep then [] :: r
    else
      match r with
      | t :: ts => (c :: t) :: ts
      | [] => [[c]]

/-- Python `str.split(sep)` on strings. -/
def splitOnCharS (sep : Char) (s : String) : List String :=
  (splitOnChar sep s.data).map String.mk

/-- Python `int(s)` for strings: strip whitespace, optional sign, then a
nonempty run of decimal digits; `none` models the `ValueError` case. -/
def pyInt? (s : String) : Option Int :=
  let t := pyStrip s.data
  let signAndDigits : Int × List Char :=
    match t with
    | '-' :: r => (-1, r)
    | '+' :: r => (1, r)
    | r => (1, r)
  let digits := signAndDigits.snd
  if digits.isEmpty then none
  else if digits.all Char.isDigit then
    some (signAndDigits.fst * (Int.ofNat (digits.foldl (fun acc c => acc * 10 + (c.toNat - 48)) 0)))
  else none

/-- Python `str(x)` for an optional int field: `None` prints as the string
None, an int prints as its decimal form.  Used by `Template.safe_substitute`
on the `year` attribute. -/
def pyStrOfOptInt : Option Int → String
  | none => "None"
  | some n => toString n

/-- The per-character filtering loop of `cleanse_string`, building the
character list left to right as the Python `for` loop does. -/
def charExpand (f : Char → List Char) : List Char → List Char
  | [] => []
  | c :: rest => f c ++ charExpand f rest

/-- main.py line 22: `allowed_punctuation = {'¿' '?', '¡', '!', '.', ',', '\''}`.
The first two literals are adjacent, so Python concatenates them into the
single two-character element `¿?`; the set therefore has six elements, one
of which can never equal a one-character string. -/
def allowed_punctuation : List String :=
  ["¿?", "¡", "!", ".", ",", String.mk [Char.ofNat 39]]

/-- main.py `cleanse_string(title, replace_to_wildcard=True, wildcard='-')`:
None becomes the empty string; otherwise strip, keep characters that are
alphanumeric, whitespace or members of `allowed_punctuation`, replace the
rest by `wildcard` when `replace_to_wildcard` (else drop them), then
collapse whitespace runs via `' '.join(s.split())`. -/
def cleanse_string (title : Option String) (replace_to_wildcard : Bool) (wildcard : String) : String :=
  match title with
  | none => ""
  | some t =>
    let t := pyStrip t.data
    let clean_title_chars := charExpand (fun c =>
      if pyIsAlnum c || pyIsSpace c || allowed_punctuation.contains (String.mk [c]) then [c]
      else if replace_to_wildcard then wildcard.data else []) t
    String.intercalate " " ((pySplitWs clean_title_chars).map String.mk)

/-!
Regex embedding.  Each matcher is the explicit backtracking search the
`re` engine performs for the given pattern under `re.match` (anchored at
the start, not at the end).  A greedy `.*` is the rule "try consuming the
current character first, fall back to matching the rest of the pattern
here"; `.` never matches a newline.
-/

/-- Backtracking loop for patterns of the form `(.*)X...`: `f c rest`
attempts the rest of the pattern at the current position (`c` being the
next character), and the scan prefers consuming `c` into the greedy `.*`
(which cannot cross a newline).  `acc` holds the consumed prefix reversed;
the result is (group of `.*`, result of `f`) for the longest viable
consumption. -/
def greedyScan (f : Char → List Char → Option α) : List Char → List Char → Option (List Char × α)
  | _, [] => none
  | acc, c :: rest =>
    match (if c = '\n' then none else greedyScan f (c :: acc) rest) with
    | some r => some r
    | none =>
      match f c rest with
      | some a => some (acc.reverse, a)
      | none => none

/-- `(the)` with `re.IGNORECASE`: three characters whose lowercase forms
are t, h, e; the capture keeps the original characters. -/
def matchThe : List Char → Option (List Char)
  | a :: b :: c :: _ =>
    if a.toLower == 't' && b.toLower == 'h' && c.toLower == 'e' then some [a, b, c]
    else none
  | _ => none

/-- Greedy continuation of `\s+(the)` after its first whitespace character:
prefer consuming further whitespace, fall back to matching `the` here. -/
def matchWsTheAux : List Char → Option (List Char)
  | [] => none
  | c :: rest =>
    match (if pyIsSpace c then matchWsTheAux rest else none) with
    | some r => some r
    | none => matchThe (c :: rest)

/-- `\s+(the)` with `re.IGNORECASE`: at least one whitespace character,
then `the`. -/
def matchWsThe : List Char → Option (List Char)
  | [] => none
  | c :: rest => if pyIsSpace c then matchWsTheAux rest else none

/-- The fixed part `,\s+(the)` of `optional_title_parsing_regex`, tried at
one position: the current character must be the comma. -/
def commaThe (c : Char) (rest : List Char) : Option (List Char) :=
  if c = ',' then matchWsThe rest else none

/-- main.py line 18: `re.match` of `(.*),\s+(the)` (IGNORECASE), returning
(group 1, group 2) of the greedy match. -/
def matchComma (l : List Char) : Option (List Char × List Char) :=
  greedyScan commaThe [] l

/-- `(\d{4}).*\)` tried at one position: four digits, then a closing
parenthesis reachable without crossing a newline (the trailing greedy `.*`
binds no group, so only reachability matters). -/
def matchFourDigits : List Char → Option (List Char)
  | a :: b :: c :: d :: rest =>
    if a.isDigit && b.isDigit && c.isDigit && d.isDigit
        && ((rest.takeWhile (fun x => x != '\n')).contains ')') then
      some [a, b, c, d]
    else none
  | _ => none

/-- One-position attempt for the interior pattern `.*(\d{4}).*\)`. -/
def yearF (c : Char) (rest : List Char) : Option (List Char) :=
  matchFourDigits (c :: rest)

/-- The interior `.*(\d{4}).*\)` of `dirname_parsing_regex`, greedy: the
digit group starts as late as possible. -/
def matchYearInner (l : List Char) : Option (List Char) :=
  (greedyScan yearF [] l).map Prod.snd

/-- The fixed part `\(.*(\d{4}).*\)` tried at one position: the current
character must be the opening parenthesis. -/
def parenYear (c : Char) (rest : List Char) : Option (List Char) :=
  if c = '(' then matchYearInner rest else none

/-- main.py line 17: `re.match` of `(.*)\(.*(\d{4}).*\)`, returning
(group 1, group 2) of the greedy match. -/
def matchTitleParen (l : List Char) : Option (List Char × List Char) :=
  greedyScan parenYear [] l

/-- main.py line 20: `re.match` of `(the)\s+(.*)` (IGNORECASE).  Since the
trailing `(.*)` always succeeds, the greedy `\s+` keeps its maximal
whitespace run, and `(.*)` captures the remainder up to a newline. -/
def titleWritingMatch (l : List Char) : Option (List Char × List Char) :=
  match l with
  | a :: b :: c :: rest =>
    if a.toLower == 't' && b.toLower == 'h' && c.toLower == 'e' then
      if (rest.takeWhile pyIsSpace).isEmpty then none
      else some ([a, b, c], (rest.dropWhile pyIsSpace).takeWhile (fun x => x != '\n'))
    else none
  | _ => none

/-- main.py lines 333-339: the trailing-article reorder step of
`extract_info_from_dirname` - on a match of `(.*),\s+(the)` the new title
is group 2, a space, group 1 (text after the matched `the` is not part of
any group and is discarded). -/
def optional_title_rewrite (title : String) : String :=
  match matchComma title.data with
  | some (g1, g2) => String.mk g2 ++ " " ++ String.mk g1
  | none => title

/-- main.py lines 149-156: the leading-article reorder step of
`Movie.set_title` - on a match of `(the)\s+(.*)` the new title is group 2,
a comma-space, group 1. -/
def title_writing_rewrite (title : String) : String :=
  match titleWritingMatch title.data with
  | some (g1, g2) => String.mk g2 ++ ", " ++ String.mk g1
  | none => title

/-- main.py lines 320-331: match `dirname_parsing_regex`; on failure the
whole dirname is the title and the year is absent, on success the title is
group 1 stripped and the year is `apply_safe_parse(int, group 2)`. -/
def dirnameParseStage (dirname : String) : String × Option Int :=
  match matchTitleParen dirname.data with
  | none => (dirname, none)
  | some (g1, g2) => (pyStripS (String.mk g1), pyInt? (String.mk g2))

/-- main.py lines 318-344: `extract_info_from_dirname` - parse stage, then
the article reorder, then `cleanse_string` with substitution disabled. -/
def extract_info_from_dirname (dirname : String) : String × Option Int :=
  let p := dirnameParseStage dirname
  (cleanse_string (some (optional_title_rewrite p.fst)) false "-", p.snd)

/-!
country_shortener.py / main.py: `CountryEntry` and `CountryDb`.
Python dicts are modelled as insertion-ordered association lists; `raise`
is modelled by `Except String` (construction aborts, no value produced).
-/

/-- country_shortener.py line 12: the stop-word list filtered out of
multi-word long names. -/
def FILTERED_LONG_NAME_WORDS : List String := ["and", "of", "the"]

/-- `CountryEntry._normalize_string`: `raw.strip().lower()`. -/
def normalize_string (raw : String) : String :=
  pyLowerS (pyStripS raw)

/-- `CountryEntry.normalize_country`: split on whitespace, normalize each
token, filter stop words only when more than one token, concatenate. -/
def normalize_country (raw : String) : String :=
  let country_parts := (pySplitWs raw.data).map (fun tok => normalize_string (String.mk tok))
  let country_parts :=
    if country_parts.length > 1 then
      country_parts.filter (fun x => !(FILTERED_LONG_NAME_WORDS.contains x))
    else country_parts
  String.join country_parts

/-- The `CountryEntry` record: the three raw optional fields and the three
normalized fields computed once at construction. -/
structure CountryEntry where
  long_name : Option String
  short_2letters : Option String
  short_3letters : Option String
  normalized_long_name : Option String
  normalized_short_2letters : Option String
  normalized_short_3letters : Option String
deriving DecidableEq

/-- Python truthiness of an optional string: `None` and the empty string
are falsy (the constructor guards with `if long_name else None`). -/
def pyTruthyStr : Option String → Bool
  | none => false
  | some s => !s.isEmpty

/-- `CountryEntry.__init__`: store the raw fields and compute the
normalized forms; long and 2-letter fields use `normalize_country`, the
3-letter field uses `_normalize_string`. -/
def CountryEntry.make (long_name short_2letters short_3letters : Option String) : CountryEntry :=
  { long_name := long_name
    normalized_long_name := if pyTruthyStr long_name then long_name.map normalize_country else none
    short_2letters := short_2letters
    normalized_short_2letters :=
      if pyTruthyStr short_2letters then short_2letters.map normalize_country else none
    short_3letters := short_3letters
    normalized_short_3letters :=
      if pyTruthyStr short_3letters then short_3letters.map normalize_string else none }

/-- `CountryEntry._get_preference`: first choice if present, else second. -/
def get_preference (first_choice second_choice : Option String) : Option String :=
  match first_choice with
  | some x => some x
  | none => second_choice

/-- `CountryEntry.get_shorter_abbrev`: prefer the 2-letter code. -/
def CountryEntry.get_shorter_abbrev (e : CountryEntry) : Option String :=
  get_preference e.short_2letters e.short_3letters

/-- `CountryEntry.get_longer_abbrev`: prefer the 3-letter code. -/
def CountryEntry.get_longer_abbrev (e : CountryEntry) : Option String :=
  get_preference e.short_3letters e.short_2letters

/-- The three mappings owned by `CountryDb`, as insertion-ordered
association lists with unique keys. -/
structure CountryDb where
  long_name_mapping : List (String × CountryEntry)
  short_2letters_mapping : List (String × CountryEntry)
  short_3letters_mapping : List (String × CountryEntry)
deriving DecidableEq

/-- Python `dict.get`. -/
def dictGet (m : List (String × CountryEntry)) (k : String) : Option CountryEntry :=
  (m.find? (fun p => p.fst == k)).map Prod.snd

/-- Python `dict[k] = v` for a key not yet present. -/
def dictSet (m : List (String × CountryEntry)) (k : String) (v : CountryEntry) :
    List (String × CountryEntry) :=
  m ++ [(k, v)]

/-- `CountryDb._add_entry_to_mapping`: a `None` key is skipped, an existing
key raises `ValueError` (modelled as `Except.error`), otherwise the entry
is stored under the key. -/
def add_entry_to_mapping (new_entry : CountryEntry) (mapping : List (String × CountryEntry))
    (key : CountryEntry → Option String) (field_name : String) :
    Except String (List (String × CountryEntry)) :=
  match key new_entry with
  | none => Except.ok mapping
  | some new_entry_key =>
    match dictGet mapping new_entry_key with
    | some _ => Except.error ("clash, shared " ++ field_name)
    | none => Except.ok (dictSet mapping new_entry_key new_entry)

/-- `CountryDb.insert_entry` (country_shortener.py lines 139-147, identical
in main.py lines 716-724).  Note the source defect kept faithfully: the
second call keys the SHORT-2 mapping by `get_normalized_short_3letters`
while labelling the clash "short 2 letters name". -/
def CountryDb.insert_entry (db : CountryDb) (entry : CountryEntry) : Except String CountryDb := do
  let lm ← add_entry_to_mapping entry db.long_name_mapping
    CountryEntry.normalized_long_name "long name"
  let s2 ← add_entry_to_mapping entry db.short_2letters_mapping
    CountryEntry.normalized_short_3letters "short 2 letters name"
  let s3 ← add_entry_to_mapping entry db.short_3letters_mapping
    CountryEntry.normalized_short_3letters "short 3 letters name"
  Except.ok { long_name_mapping := lm, short_2letters_mapping := s2, short_3letters_mapping := s3 }

/-- `CountryDb.__init__`: start from empty mappings and insert every entry;
an insertion error aborts construction (no catalog value is produced). -/
def countryDbInit (entries : List CountryEntry) : Except String CountryDb :=
  entries.foldlM CountryDb.insert_entry
    { long_name_mapping := [], short_2letters_mapping := [], short_3letters_mapping := [] }

/-- `CountryDb.from_serializable_list`: build entries with
`CountryEntry.from_dict` (the three optional fields of each record), then
run the constructor. -/
def from_serializable_list (l : List (Option String × Option String × Option String)) :
    Except String CountryDb :=
  countryDbInit (l.map (fun r => CountryEntry.make r.fst r.snd.fst r.snd.snd))

/-- `CountryDb._maybe_normalize`. -/
def maybe_normalize (raw : String) (normalize : Bool) : String :=
  if normalize then normalize_country raw else raw

/-- `CountryDb.find_by_long_name`. -/
def CountryDb.find_by_long_name (db : CountryDb) (long_name : String) (normalize : Bool) :
    Option CountryEntry :=
  dictGet db.long_name_mapping (maybe_normalize long_name normalize)

/-- `CountryDb.find_by_short_2letters`. -/
def CountryDb.find_by_short_2letters (db : CountryDb) (short_2letters : String) (normalize : Bool) :
    Option CountryEntry :=
  dictGet db.short_2letters_mapping (maybe_normalize short_2letters normalize)

/-- `CountryDb.find_by_short_3letters`. -/
def CountryDb.find_by_short_3letters (db : CountryDb) (short_3letters : String) (normalize : Bool) :
    Option CountryEntry :=
  dictGet db.short_3letters_mapping (maybe_normalize short_3letters normalize)

/-- `CountryDb.find_anywhere`: normalize once, then probe the long-name,
short-2 and short-3 mappings in that order, returning the first hit. -/
def CountryDb.find_anywhere (db : CountryDb) (country : String) : Option CountryEntry :=
  let normalized_name := normalize_country country
  match db.find_by_long_name normalized_name false with
  | some e => some e
  | none =>
    match db.find_by_short_2letters normalized_name false with
    | some e => some e
    | none => db.find_by_short_3letters normalized_name false

/-- The accumulator loop of `Movie._shorten_countries` (main.py lines
130-144): per element, look the country up anywhere, take the shorter
abbreviation when the entry has one, else keep the original string. -/
def shorten_loop (db : CountryDb) (acc : List String) : List String → List String
  | [] => acc
  | original_country :: rest =>
    let found_entry := db.find_anywhere original_country
    let found_shortened :=
      match found_entry with
      | some e => e.get_shorter_abbrev
      | none => none
    match found_shortened with
    | none => shorten_loop db (acc ++ [original_country]) rest
    | some s => shorten_loop db (acc ++ [s]) rest

/-- `Movie._shorten_countries`, with the singleton database passed
explicitly. -/
def shorten_countries (db : CountryDb) (original_countries : List String) : List String :=
  shorten_loop db [] original_countries

/-!
main.py: `Movie`, `MovieConfig` and `get_movie_for_dir`.  The OMDb JSON
payloads consumed by `Movie.from_json` / `expand_details_from_json` are
modelled as a record of the six optional fields the code reads; HTTP
lookups and terminal prompts are modelled as function parameters.
-/

/-- The fields of an OMDb JSON payload that the code reads. -/
structure MovieJson where
  Title : Option String
  Year : Option String
  imdbID : Option String
  Actors : Option String
  Director : Option String
  Country : Option String
deriving DecidableEq

/-- The `Movie` object state: raw and display forms as stored by the
constructor and setters. -/
structure Movie where
  title : String
  year : Option Int
  imdb_id : Option String
  raw_actors : Option (List String)
  actors : String
  director : String
  raw_countries : Option (List String)
  countries : String
deriving DecidableEq

/-- `Movie.set_title`: apply the leading-article rewrite, then store the
cleansed result (substitution enabled, wildcard `-`). -/
def Movie.set_title_m (m : Movie) (title : String) : Movie :=
  { m with title := cleanse_string (some (title_writing_rewrite title)) true "-" }

/-- `Movie.set_actors`: store the raw list and the cleansed comma-space
join (`_calculate_actors`). -/
def Movie.set_actors_m (m : Movie) (actors : Option (List String)) : Movie :=
  { m with
    raw_actors := actors
    actors := cleanse_string (actors.map (String.intercalate ", ")) true "-" }

/-- `Movie.set_countries`: split the provider string on commas, strip each
piece, shorten through the catalog, then store the cleansed comma-space
join (wildcard `-`). -/
def Movie.set_countries_m (db : CountryDb) (m : Movie) (countries : Option String) : Movie :=
  let raw := countries.map (fun cs => shorten_countries db ((splitOnCharS ',' cs).map pyStripS))
  { m with
    raw_countries := raw
    countries := cleanse_string (raw.map (String.intercalate ", ")) true "-" }

/-- `Movie.__init__` (main.py lines 118-128): set_title, year, imdb_id,
set_actors, director (cleansed with wildcard " - "), set_countries. -/
def Movie.make (db : CountryDb) (title : String) (year : Option Int) (imdb_id : Option String)
    (actors : Option (List String)) (director : Option String) (countries : Option String) :
    Movie :=
  let m0 : Movie :=
    { title := "", year := year, imdb_id := imdb_id, raw_actors := none, actors := "",
      director := "", raw_countries := none, countries := "" }
  let m1 := m0.set_title_m title
  let m2 := m1.set_actors_m actors
  let m3 : Movie := { m2 with director := cleanse_string director true " - " }
  m3.set_countries_m db countries

/-- main.py line 15: the folder-name template rendered by
`Template.safe_substitute`; every placeholder exists as an attribute, so
substitution is plain concatenation with `str()` conversion. -/
def folder_name_template_render (title countries year director actors : String) : String :=
  title ++ " (" ++ countries ++ " " ++ year ++ ", " ++ director ++ " - " ++ actors ++ ")"

/-- `Movie.to_formatted_filename`: substitute the attributes into the
template; the int-or-None `year` goes through `str()`. -/
def Movie.to_formatted_filename (m : Movie) : String :=
  folder_name_template_render m.title m.countries (pyStrOfOptInt m.year) m.director m.actors

/-- `Movie._extract_actors_list`: split on commas and strip each piece. -/
def extract_actors_list (raw_actors : String) : List String :=
  (splitOnCharS ',' raw_actors).map pyStripS

/-- `Movie.from_json`: a missing `Title` makes `set_title(None)` apply a
regex to `None`, raising `TypeError` (modelled as `Except.error`); the
year is `apply_safe_parse(int, ...)`. -/
def Movie.from_json (db : CountryDb) (j : MovieJson) : Except String Movie :=
  match j.Title with
  | none => Except.error "TypeError: expected string or bytes-like object"
  | some t => Except.ok (Movie.make db t (j.Year.bind pyInt?) j.imdbID none none none)

/-- `Movie.expand_details_from_json` / `_add_details`: actors via the safe
parse of `_extract_actors_list`, director cleansed with wildcard " - ",
countries through `set_countries`. -/
def Movie.expand_details_from_json (db : CountryDb) (m : Movie) (j : MovieJson) : Movie :=
  let actors := j.Actors.map extract_actors_list
  let m := m.set_actors_m actors
  let m : Movie := { m with director := cleanse_string j.Director true " - " }
  m.set_countries_m db j.Country

/-- `Movie.from_imdb_id`: detail lookup by id, then `from_json` (whose
exception propagates uncaught) and `expand_details_from_json`. -/
def Movie.from_imdb_id (db : CountryDb) (details : Option String → Option MovieJson)
    (imdb_id : Option String) : Except String (Option Movie) :=
  match details imdb_id with
  | none => Except.ok none
  | some j =>
    match Movie.from_json db j with
    | Except.error e => Except.error e
    | Except.ok m => Except.ok (some (m.expand_details_from_json db j))

/-- `Movie.from_filename`: extract title and year from the dirname, search
by title, build and expand; the enclosing `try` turns every failure into
`None`. -/
def Movie.from_filename (db : CountryDb) (search : String → Option Int → Option MovieJson)
    (details : Option String → Option MovieJson) (filename : String) : Option Movie :=
  let p := extract_info_from_dirname filename
  match search p.fst p.snd with
  | none => none
  | some basic_movie_info =>
    match Movie.from_json db basic_movie_info with
    | Except.error _ => none
    | Except.ok rv =>
      match details rv.imdb_id with
      | none => none
      | some movie_details => some (rv.expand_details_from_json db movie_details)

/-- The per-folder override record (`config.json`): the `imdbID` and
optional `Title` fields. -/
structure MovieConfig where
  imdb_id : Option String
  title : Option String
deriving DecidableEq

/-- The external collaborators of `get_movie_for_dir`: the two HTTP
lookups and the two interactive prompts.  `promptedId` is the id string
the user finally enters at `prompt_imdb_id` (`none` models leaving it
blank); `chosenTitle` is the outcome of `prompt_movie_title` as a function
of the two candidate titles. -/
structure RunEnv where
  search : String → Option Int → Option MovieJson
  details : Option String → Option MovieJson
  promptedId : Option String
  chosenTitle : String → String → String

/-- `prompt_imdb_id`: blank input yields no movie; otherwise the movie is
built from the detail lookup of the accepted id (the interactive loop only
accepts ids whose construction succeeds). -/
def prompt_imdb_id (db : CountryDb) (env : RunEnv) : Option Movie :=
  match env.promptedId with
  | none => none
  | some imdb_id =>
    match env.details (some imdb_id) with
    | none => none
    | some j =>
      match Movie.from_json db j with
      | Except.error _ => none
      | Except.ok m => some (m.expand_details_from_json db j)

/-- main.py lines 504-548: `get_movie_for_dir`.  The file system is
modelled by `filenames_nonempty` (the empty-dir check) and `config` (the
parsed `config.json` when present); the returned pair is (movie, override
record written by this run, if any).  The two `AttributeError` cases of
the source (calling a method on a `None` movie) are modelled as
`Except.error`. -/
def get_movie_for_dir (db : CountryDb) (env : RunEnv) (filenames_nonempty : Bool)
    (config : Option MovieConfig) (dirname : String) :
    Except String (Option Movie × Option MovieConfig) :=
  match filenames_nonempty with
  | false => Except.ok (none, none)
  | true =>
    match config with
    | some movie_config =>
      match Movie.from_imdb_id db env.details movie_config.imdb_id with
      | Except.error e => Except.error e
      | Except.ok movie =>
        match movie_config.title with
        | none => Except.ok (movie, none)
        | some optional_title =>
          match movie with
          | none => Except.error "AttributeError: NoneType has no attribute set_title"
          | some m => Except.ok (some (m.set_title_m optional_title), none)
    | none =>
      match Movie.from_filename db env.search env.details dirname with
      | some m => Except.ok (some m, none)
      | none =>
        match prompt_imdb_id db env with
        | none => Except.error "AttributeError: NoneType has no attribute title"
        | some movie =>
          let movie_title := (extract_info_from_dirname dirname).fst
          let chosen_movie_title := env.chosenTitle movie.title movie_title
          let movie := movie.set_title_m chosen_movie_title
          Except.ok (some movie, some { imdb_id := movie.imdb_id, title := some chosen_movie_title })

/-!
Auxiliary definitions used by the theorem statements, and the concrete
environments used by witnesses.
-/

/-- Position semantics of the `greedyScan` matchers: the attempt of the
fixed part of the pattern at position `i`, which requires the greedy `.*`
to reach `i` without crossing a newline. -/
def hitAt (f : Char → List Char → Option α) (l : List Char) (i : Nat) : Option α :=
  if '\n' ∈ l.take i then none
  else
    match l.drop i with
    | [] => none
    | c :: rest => f c rest

/-- Whether a character list starts with the three letters t, h, e
(case-insensitively). -/
def firstThreeIsThe : List Char → Bool
  | a :: b :: c :: _ => a.toLower == 't' && b.toLower == 'h' && c.toLower == 'e'
  | _ => false

/-- Whether a character list does not begin with a whitespace character. -/
def headNotSpace : List Char → Bool
  | [] => true
  | c :: _ => !pyIsSpace c

/-- The eight casings of the word the. -/
def theCasings : List String :=
  ["the", "The", "tHe", "thE", "THe", "tHE", "ThE", "THE"]

/-- Empty country catalog used by concrete witnesses. -/
def db0 : CountryDb :=
  { long_name_mapping := [], short_2letters_mapping := [], short_3letters_mapping := [] }

/-- A concrete provider payload used by the override-contract witness. -/
def j0 : MovieJson :=
  { Title := some "The Movie", Year := some "1999", imdbID := some "tt1",
    Actors := none, Director := none, Country := none }

/-- A concrete run environment: the search collaborator finds nothing, the
user types the id tt1 at the prompt, and the title prompt returns the
string Chosen. -/
def env0 : RunEnv :=
  { search := fun _ _ => none
    details := fun oid => if oid = some "tt1" then some j0 else none
    promptedId := some "tt1"
    chosenTitle := fun _ _ => "Chosen" }

/-- A second environment with the same detail lookup but a different
search collaborator and different prompts. -/
def env0x : RunEnv :=
  { env0 with
    search := fun _ _ => some j0
    promptedId := none
    chosenTitle := fun a _ => a }

/-- An arbitrary pre-existing override record. -/
def mcX : MovieConfig := { imdb_id := none, title := none }

/-- The movie produced by the first (override-free) run of the witness
scenario. -/
def m1c : Movie :=
  { title := "Chosen", year := some 1999, imdb_id := some "tt1", raw_actors := none,
    actors := "", director := "", raw_countries := none, countries := "" }

/-- The override record written by that first run. -/
def mc1c : MovieConfig := { imdb_id := some "tt1", title := some "Chosen" }

/-!
Helper lemmas.
-/

/-- hitAt on the empty list never fires. -/
theorem hitAt_nil (f : Char → List Char → Option α) (i : Nat) : hitAt f [] i = none := by
  simp [hitAt]

/-- hitAt at position zero is the bare attempt of the fixed pattern. -/
theorem hitAt_zero (f : Char → List Char → Option α) (c : Char) (rest : List Char) :
    hitAt f (c :: rest) 0 = f c rest := by
  simp [hitAt]

/-- hitAt at a successor position steps over the head unless it is a
newline. -/
theorem hitAt_succ (f : Char → List Char → Option α) (c : Char) (rest : List Char) (i : Nat) :
    hitAt f (c :: rest) (i + 1) = if c = '\n' then none else hitAt f rest i := by
  by_cases hc : c = '\n'
  · subst hc
    simp [hitAt, List.take_succ_cons]
  · have hc2 : ¬('\n' = c) := fun h => hc h.symm
    simp [hitAt, List.take_succ_cons, List.drop_succ_cons, hc, hc2]

/-- A greedy scan fails exactly when the fixed pattern fires at no
reachable position. -/
theorem greedyScan_eq_none_iff (f : Char → List Char → Option α) :
    ∀ (l acc : List Char), greedyScan f acc l = none ↔ ∀ i, hitAt f l i = none := by
  intro l
  induction l with
  | nil =>
    intro acc
    constructor
    · intro _ i
      exact hitAt_nil f i
    · intro _
      rfl
  | cons c rest ih =>
    intro acc
    by_cases hc : c = '\n'
    · subst hc
      constructor
      · intro h i
        cases i with
        | zero =>
          rw [hitAt_zero]
          revert h
          simp only [greedyScan, if_pos rfl]
          cases hf : f '\n' rest <;> simp [hf]
        | succ i =>
          rw [hitAt_succ]
          simp
      · intro h
        have h0 := h 0
        rw [hitAt_zero] at h0
        simp [greedyScan, h0]
    · constructor
      · intro h i
        have hsplit : greedyScan f (c :: acc) rest = none ∧ f c rest = none := by
          revert h
          simp only [greedyScan, if_neg hc]
          cases hg : greedyScan f (c :: acc) rest
          · cases hf : f c rest <;> simp [hf]
          · simp
        cases i with
        | zero =>
          rw [hitAt_zero]
          exact hsplit.2
        | succ i =>
          rw [hitAt_succ, if_neg hc]
          exact (ih (c :: acc)).1 hsplit.1 i
      · intro h
        have h0 := h 0
        rw [hitAt_zero] at h0
        have hrest : ∀ i, hitAt f rest i = none := by
          intro i
          have hi := h (i + 1)
          rwa [hitAt_succ, if_neg hc] at hi
        have hscan := (ih (c :: acc)).2 hrest
        simp [greedyScan, if_neg hc, hscan, h0]

/-- A successful greedy scan fires at the last reachable position at which
the fixed pattern can fire, and group 1 is everything before it. -/
theorem greedyScan_eq_some (f : Char → List Char → Option α) :
    ∀ (l acc g : List Char) (a : α), greedyScan f acc l = some (g, a) →
      ∃ i, hitAt f l i = some a ∧ g = acc.reverse ++ l.take i ∧
        ∀ j, i < j → hitAt f l j = none := by
  intro l
  induction l with
  | nil =>
    intro acc g a h
    exact absurd h (by simp [greedyScan])
  | cons c rest ih =>
    intro acc g a h
    by_cases hc : c = '\n'
    · subst hc
      cases hf : f '\n' rest with
      | none =>
        have hnone : greedyScan f acc ('\n' :: rest) = none := by
          simp [greedyScan, hf]
        rw [hnone] at h
        exact Option.noConfusion h
      | some a0 =>
        have hsome : greedyScan f acc ('\n' :: rest) = some (acc.reverse, a0) := by
          simp [greedyScan, hf]
        rw [hsome] at h
        obtain ⟨hg, ha⟩ : acc.reverse = g ∧ a0 = a := by simpa using h
        refine ⟨0, ?_, ?_, ?_⟩
        · rw [hitAt_zero, hf, ha]
        · simp [← hg]
        · intro j hj
          cases j with
          | zero => omega
          | succ j =>
            rw [hitAt_succ]
            simp
    · cases hg : greedyScan f (c :: acc) rest with
      | some r =>
        have hsome : greedyScan f acc (c :: rest) = some r := by
          simp [greedyScan, if_neg hc, hg]
        rw [hsome] at h
        obtain ⟨g0, a0⟩ := r
        obtain ⟨hg0, ha0⟩ : g0 = g ∧ a0 = a := by simpa using h
        obtain ⟨i, h1, h2, h3⟩ := ih (c :: acc) g0 a0 hg
        refine ⟨i + 1, ?_, ?_, ?_⟩
        · rw [hitAt_succ, if_neg hc, ← ha0]
          exact h1
        · rw [← hg0, h2]
          simp [List.take_succ_cons]
        · intro j hj
          cases j with
          | zero => omega
          | succ j =>
            rw [hitAt_succ, if_neg hc]
            exact h3 j (by omega)
      | none =>
        cases hf : f c rest with
        | none =>
          have hnone : greedyScan f acc (c :: rest) = none := by
            simp [greedyScan, if_neg hc, hg, hf]
          rw [hnone] at h
          exact Option.noConfusion h
        | some a0 =>
          have hsome : greedyScan f acc (c :: rest) = some (acc.reverse, a0) := by
            simp [greedyScan, if_neg hc, hg, hf]
          rw [hsome] at h
          obtain ⟨hg2, ha⟩ : acc.reverse = g ∧ a0 = a := by simpa using h
          refine ⟨0, ?_, ?_, ?_⟩
          · rw [hitAt_zero, hf, ha]
          · simp [← hg2]
          · intro j hj
            cases j with
            | zero => omega
            | succ j =>
              rw [hitAt_succ, if_neg hc]
              exact (greedyScan_eq_none_iff f rest (c :: acc)).1 hg j

/-- String append acts as list append on the underlying data. -/
theorem data_append (a b : String) : (a ++ b).data = a.data ++ b.data := rfl

/-- A whitespace character never lowercases to the letter t. -/
theorem pyIsSpace_toLower_ne_t (c : Char) (h : pyIsSpace c = true) :
    (c.toLower == 't') = false := by
  have hc : c ∈ pySpaceChars := by
    simpa [pyIsSpace] using h
  fin_cases hc <;> decide

/-- matchThe fails whenever the head character cannot lowercase to t. -/
theorem matchThe_none_of_head (c : Char) (hc : (c.toLower == 't') = false) (rest : List Char) :
    matchThe (c :: rest) = none := by
  cases rest with
  | nil => rfl
  | cons b r1 =>
    cases r1 with
    | nil => rfl
    | cons d r2 => simp [matchThe, hc]

/-- The greedy tail of the whitespace matcher skips the maximal whitespace
run and then tries the literal the. -/
theorem matchWsTheAux_eq (l : List Char) : matchWsTheAux l = matchThe (l.dropWhile pyIsSpace) := by
  induction l with
  | nil => rfl
  | cons c rest ih =>
    by_cases hc : pyIsSpace c
    · have hThe := matchThe_none_of_head c (pyIsSpace_toLower_ne_t c hc) rest
      cases hr : matchWsTheAux rest with
      | some r => simp [matchWsTheAux, hc, hr, List.dropWhile_cons, ← ih]
      | none => simp [matchWsTheAux, hc, hr, hThe, List.dropWhile_cons, ← ih]
    · simp [matchWsTheAux, hc, List.dropWhile_cons]

/-- Characterisation of the whitespace-then-the matcher: at least one
whitespace character, then the next characters spell the
(case-insensitively); the capture is taken after the maximal whitespace
run. -/
theorem matchWsThe_eq (l : List Char) :
    matchWsThe l =
      if (l.takeWhile pyIsSpace).isEmpty then none else matchThe (l.dropWhile pyIsSpace) := by
  cases l with
  | nil => rfl
  | cons c rest =>
    by_cases hc : pyIsSpace c
    · simp [matchWsThe, hc, matchWsTheAux_eq, List.takeWhile_cons, List.dropWhile_cons]
    · simp [matchWsThe, hc, List.takeWhile_cons]

/-- matchThe succeeds exactly when the first three characters spell the
(case-insensitively). -/
theorem matchThe_isSome_eq (l : List Char) : (matchThe l).isSome = firstThreeIsThe l := by
  cases l with
  | nil => rfl
  | cons a l1 =>
    cases l1 with
    | nil => rfl
    | cons b l2 =>
      cases l2 with
      | nil => rfl
      | cons c r =>
        cases hcond : (a.toLower == 't' && b.toLower == 'h' && c.toLower == 'e') <;>
          simp [matchThe, firstThreeIsThe, hcond]

/-- A scan for the comma pattern fails on a comma-free list. -/
theorem greedyScan_commaThe_no_comma :
    ∀ (l : List Char), ',' ∉ l → ∀ acc, greedyScan commaThe acc l = none := by
  intro l
  induction l with
  | nil =>
    intro _ acc
    rfl
  | cons c rest ih =>
    intro h acc
    have hc : ¬(c = ',') := by
      intro he
      exact h (by simp [he])
    have hrest : ',' ∉ rest := fun hm => h (List.mem_cons_of_mem c hm)
    by_cases hnl : c = '\n'
    · simp [greedyScan, hnl, commaThe, hc]
    · simp [greedyScan, hnl, commaThe, hc, ih hrest]

/-- Appending a comma, a space and a the-casing to a newline-free core
makes the comma matcher fire exactly at the final comma (the greedy group
is the whole core). -/
theorem matchComma_append_the (theData : List Char)
    (hWs : matchWsThe (' ' :: theData) = some theData)
    (hNoComma : ',' ∉ theData) :
    ∀ (core acc : List Char), '\n' ∉ core →
      greedyScan commaThe acc (core ++ ',' :: ' ' :: theData) =
        some (acc.reverse ++ core, theData) := by
  intro core
  induction core with
  | nil =>
    intro acc _
    have hdeep : greedyScan commaThe (',' :: acc) (' ' :: theData) = none := by
      apply greedyScan_commaThe_no_comma
      intro hmem
      rcases List.mem_cons.mp hmem with h1 | h1
      · exact absurd h1 (by decide)
      · exact hNoComma h1
    rw [greedyScan.eq_def]
    simp [hdeep, commaThe, hWs]
  | cons c core1 ih =>
    intro acc hnl
    have hc : ¬(c = '\n') := by
      intro he
      exact hnl (by simp [he])
    have hcore : '\n' ∉ core1 := fun hm => hnl (List.mem_cons_of_mem c hm)
    have hdeep := ih (c :: acc) hcore
    rw [List.cons_append, greedyScan.eq_def]
    simp [hc, hdeep]

/-- takeWhile for the not-newline predicate keeps a newline-free list
whole. -/
theorem takeWhile_ne_nl (l : List Char) (h : '\n' ∉ l) :
    l.takeWhile (fun x => x != '\n') = l := by
  induction l with
  | nil => rfl
  | cons d r ih =>
    have hd : ¬(d = '\n') := by
      intro he
      exact h (by simp [he])
    have hr : '\n' ∉ r := fun hm => h (List.mem_cons_of_mem d hm)
    simp [List.takeWhile_cons, hd, ih hr]

/-- The title-writing matcher on a the-casing, one space and a core that
starts with a non-space character: the maximal whitespace run is that one
space and the second group is the whole core. -/
theorem titleWritingMatch_append (a b c : Char) (core : List Char)
    (hthe : (a.toLower == 't' && b.toLower == 'h' && c.toLower == 'e') = true)
    (hnl : '\n' ∉ core)
    (hhd : headNotSpace core = true) :
    titleWritingMatch (a :: b :: c :: ' ' :: core) = some ([a, b, c], core) := by
  have htw : core.takeWhile pyIsSpace = [] := by
    cases core with
    | nil => rfl
    | cons d r =>
      have hds : pyIsSpace d = false := by simpa [headNotSpace] using hhd
      simp [List.takeWhile_cons, hds]
  have hdw : core.dropWhile pyIsSpace = core := by
    cases core with
    | nil => rfl
    | cons d r =>
      have hds : pyIsSpace d = false := by simpa [headNotSpace] using hhd
      simp [List.dropWhile_cons, hds]
  have hsp : pyIsSpace ' ' = true := by decide
  simp [titleWritingMatch, hthe, List.takeWhile_cons, List.dropWhile_cons, hsp, htw, hdw,
    takeWhile_ne_nl core hnl]

/-- The accumulator loop of the country shortener is a plain map. -/
theorem shorten_loop_map (db : CountryDb) :
    ∀ (l acc : List String),
      shorten_loop db acc l = acc ++ l.map (fun oc =>
        match (db.find_anywhere oc).bind CountryEntry.get_shorter_abbrev with
        | some s => s
        | none => oc) := by
  intro l
  induction l with
  | nil =>
    intro acc
    simp [shorten_loop]
  | cons oc rest ih =>
    intro acc
    cases hf : db.find_anywhere oc with
    | none => simp [shorten_loop, hf, ih]
    | some e =>
      cases hs : e.get_shorter_abbrev with
      | none => simp [shorten_loop, hf, hs, ih]
      | some s => simp [shorten_loop, hf, hs, ih]

/-- Setting the title leaves the external id unchanged. -/
theorem set_title_m_imdb (m : Movie) (t : String) : (m.set_title_m t).imdb_id = m.imdb_id := rfl

/-- Expanding details leaves the external id unchanged. -/
theorem expand_imdb (db : CountryDb) (m : Movie) (j : MovieJson) :
    (m.expand_details_from_json db j).imdb_id = m.imdb_id := rfl

/-- A movie built by from_json carries the imdbID of its payload. -/
theorem from_json_imdb (db : CountryDb) (j : MovieJson) (m : Movie)
    (h : Movie.from_json db j = Except.ok m) : m.imdb_id = j.imdbID := by
  unfold Movie.from_json at h
  cases hT : j.Title with
  | none =>
    rw [hT] at h
    exact Except.noConfusion h
  | some t =>
    rw [hT] at h
    injection h with h1
    rw [← h1]
    rfl

/-!
Claim theorems.
-/

/-- C1: the code keys the short-2 mapping by the normalized short-3 field,
so inserting an entry whose only abbreviation is a 2-letter code stores
nothing in the short-2 mapping, and looking it up by its normalized
short-2 key returns nothing - contradicting the claim that insert stores
the entry under its normalized short-2 key and that findByShort2 then
returns it. -/
theorem insert_entry_short2_keyed_by_short3 :
    ((countryDbInit [CountryEntry.make (some "United States") (some "US") none]).toOption.map
        (fun db => (db.find_by_short_2letters "US" true, db.short_2letters_mapping)))
      = some (none, [])
    ∧ (CountryEntry.make (some "United States") (some "US") none).normalized_short_2letters
      = some "us" := by
  decide

/-- C2: two entries sharing the normalized short-2 key us (but differing
on the long-name and short-3 keys) load without any duplicate-key error,
because the short-2 mapping is keyed by the normalized short-3 field -
contradicting the claim that a collision on any one of the three keys
makes loading fail. -/
theorem short2_collision_load_succeeds :
    ((countryDbInit [CountryEntry.make none (some "US") (some "USA"),
                     CountryEntry.make none (some "US") (some "FRA")]).toOption.isSome = true)
    ∧ (CountryEntry.make none (some "US") (some "USA")).normalized_short_2letters
        = (CountryEntry.make none (some "US") (some "FRA")).normalized_short_2letters
    ∧ (CountryEntry.make none (some "US") (some "USA")).normalized_short_2letters = some "us" := by
  decide

/-- C3: the question mark and the inverted question mark are not members
of the allowed-punctuation set as written (its first element is the
two-character string produced by the missing comma), so sanitising
replaces them by the wildcard (or drops them), while the other five
punctuation characters do pass through - contradicting the claim that all
seven pass unchanged. -/
theorem cleanse_string_question_mark_replaced :
    cleanse_string (some "a?b") true "-" = "a-b"
    ∧ cleanse_string (some "a?b") false "-" = "ab"
    ∧ cleanse_string (some "¿a") true "-" = "-a"
    ∧ cleanse_string (some "a!b.c,d") true "-" = "a!b.c,d"
    ∧ cleanse_string (some "a¡b") true "-" = "a¡b" := by
  decide

/-- C7 counterexample: a movie with no year renders the string None in the
year position of the label (Python str of None), not the empty string the
claim requires; the other absent fields do render empty. -/
theorem formatted_filename_none_year :
    (Movie.make db0 "X" none (some "id1") none none none).to_formatted_filename
      = "X ( None,  - )" := by
  decide

/-- C7 amended: rendering is total and a movie built with absent actors,
director and countries renders them as empty strings in their template
positions, while an absent year renders as the string None via str(). -/
theorem formatted_filename_absent_fields (db : CountryDb) (t : String) (y : Option Int)
    (oid : Option String) :
    (Movie.make db t y oid none none none).to_formatted_filename
      = folder_name_template_render
          (cleanse_string (some (title_writing_rewrite t)) true "-") "" (pyStrOfOptInt y) "" ""
    ∧ (Movie.make db "X" none (some "i") none none none).to_formatted_filename
      = "X ( None,  - )" := by
  constructor
  · rfl
  · rfl

/-- C8: shortening a country list is a one-to-one, order-preserving map:
each element is replaced by the shorter abbreviation of its find-anywhere
match when that exists, and passes through unchanged when there is no
match or no abbreviation; the length is always preserved. -/
theorem shorten_countries_pointwise (db : CountryDb) (l : List String) :
    shorten_countries db l = l.map (fun oc =>
        match (db.find_anywhere oc).bind CountryEntry.get_shorter_abbrev with
        | some s => s
        | none => oc)
    ∧ (shorten_countries db l).length = l.length := by
  have h := shorten_loop_map db l []
  constructor
  · simpa [shorten_countries] using h
  · have h2 : shorten_countries db l = l.map (fun oc =>
        match (db.find_anywhere oc).bind CountryEntry.get_shorter_abbrev with
        | some s => s
        | none => oc) := by simpa [shorten_countries] using h
    rw [h2, List.length_map]

/-- C9 counterexample: on an input where the title-year pattern fails, the
extractor does not return the sanitized whole input - the trailing-article
reorder still applies first, so Matrix-comma-The comes back as The Matrix
even though sanitising alone would leave it unchanged. -/
theorem extract_degraded_still_reorders :
    extract_info_from_dirname "Matrix, The" = ("The Matrix", none)
    ∧ cleanse_string (some "Matrix, The") false "-" = "Matrix, The" := by
  decide

/-- C9 amended: extraction is a total function; when the title-year
pattern does not match, the result is the whole input passed through the
trailing-article reorder and then sanitised with substitution disabled,
with the year absent - and when the reorder pattern does not match either,
it is exactly the sanitised whole input. -/
theorem extract_no_dirname_match (s : String)
    (h : matchTitleParen s.data = none) :
    extract_info_from_dirname s
      = (cleanse_string (some (optional_title_rewrite s)) false "-", none)
    ∧ (matchComma s.data = none →
        extract_info_from_dirname s = (cleanse_string (some s) false "-", none)) := by
  constructor
  · simp [extract_info_from_dirname, dirnameParseStage, h]
  · intro h2
    simp [extract_info_from_dirname, dirnameParseStage, h, optional_title_rewrite, h2]

/-- C9 witness: the degraded case on the input No Year Folder. -/
theorem extract_no_dirname_match_witness :
    matchTitleParen ("No Year Folder").data = none
    ∧ matchComma ("No Year Folder").data = none
    ∧ extract_info_from_dirname "No Year Folder"
        = (cleanse_string (some "No Year Folder") false "-", none)
    ∧ cleanse_string (some "No Year Folder") false "-" = "No Year Folder" := by
  refine ⟨by decide, by decide, ?_, by decide⟩
  exact (extract_no_dirname_match "No Year Folder" (by decide)).2 (by decide)

/-- C6 counterexample: the reorder rule is not anchored to the end of the
title - it fires inside Matrix-comma-Theatre, moving The and discarding
the unmatched trailing atre, even though that title does not end with a
trailing comma-the clause. -/
theorem article_reorder_fires_mid_title :
    extract_info_from_dirname "Matrix, Theatre (1999)" = ("The Matrix", some 1999)
    ∧ pyStripS "Matrix, Theatre " = "Matrix, Theatre" := by
  decide

/-- C4 counterexample: with a double space before the article, neither
composition of the two rewrites reproduces the original title, although it
contains exactly one article - set_title leaves it unchanged while the
extractor rewrites it, and the round trip collapses the whitespace. -/
theorem title_rewrites_not_inverse_double_space :
    optional_title_rewrite (title_writing_rewrite "Matrix,  The") ≠ "Matrix,  The"
    ∧ title_writing_rewrite (optional_title_rewrite "Matrix,  The") ≠ "Matrix,  The"
    ∧ optional_title_rewrite "Matrix,  The" = "The Matrix"
    ∧ title_writing_rewrite "Matrix,  The" = "Matrix,  The" := by
  decide


/-- Structured elimination for a firing hit: no newline before the
position, and the fixed pattern succeeds on the split there. -/
theorem hitAt_eq_some (f : Char → List Char → Option α) (l : List Char) (i : Nat) (a : α)
    (h : hitAt f l i = some a) :
    '\n' ∉ l.take i ∧ ∃ c rest, l.drop i = c :: rest ∧ f c rest = some a := by
  unfold hitAt at h
  by_cases hnl : '\n' ∈ l.take i
  · rw [if_pos hnl] at h
    exact absurd h (by simp)
  · rw [if_neg hnl] at h
    refine ⟨hnl, ?_⟩
    cases hd : l.drop i with
    | nil => rw [hd] at h; exact absurd h (by simp)
    | cons c rest =>
      rw [hd] at h
      exact ⟨c, rest, rfl, h⟩

/-- Computation rule for a hit at a reachable position. -/
theorem hitAt_eq_of (f : Char → List Char → Option α) (l : List Char) (i : Nat) (c : Char)
    (rest : List Char) (hnl : '\n' ∉ l.take i) (hd : l.drop i = c :: rest) :
    hitAt f l i = f c rest := by
  unfold hitAt
  rw [if_neg hnl, hd]

/-- Dropping one more element after splitting at a cons. -/
theorem drop_succ_of_drop (l : List Char) (i : Nat) (c : Char) (rest : List Char)
    (hd : l.drop i = c :: rest) : l.drop (i + 1) = rest := by
  have hdd := List.drop_drop 1 i l
  rw [hd] at hdd
  simpa using hdd.symm

/-- C6 amended: the reorder rule fires exactly when some position of the
title (reachable without crossing a newline) holds a comma followed by at
least one whitespace character and then the letters t-h-e
(case-insensitively) - the match is anchored at the word the but NOT at
the end of the title, and text after the matched the is discarded by the
rewrite; in particular Paris, Texas is not reordered while
Paris, Theatre is. -/
theorem article_reorder_fires_iff_comma_ws_the (title : String) :
    ((matchComma title.data).isSome = true ↔
      ∃ i, '\n' ∉ title.data.take i
        ∧ (title.data.drop i).head? = some ','
        ∧ ((title.data.drop (i + 1)).takeWhile pyIsSpace).isEmpty = false
        ∧ firstThreeIsThe ((title.data.drop (i + 1)).dropWhile pyIsSpace) = true)
    ∧ extract_info_from_dirname "Paris, Texas (1984)" = ("Paris, Texas", some 1984)
    ∧ extract_info_from_dirname "Paris, Theatre (1984)" = ("The Paris", some 1984) := by
  refine ⟨?_, by decide, by decide⟩
  constructor
  · intro h
    cases hm : matchComma title.data with
    | none => rw [hm] at h; exact absurd h (by simp)
    | some p =>
      obtain ⟨g, a⟩ := p
      obtain ⟨i, h1, _, _⟩ := greedyScan_eq_some commaThe title.data [] g a hm
      obtain ⟨hnl, c, rest, hd, hf⟩ := hitAt_eq_some commaThe title.data i a h1
      unfold commaThe at hf
      by_cases hcm : c = ','
      · rw [if_pos hcm] at hf
        have hrest := drop_succ_of_drop title.data i c rest hd
        rw [matchWsThe_eq] at hf
        by_cases hemp : (rest.takeWhile pyIsSpace).isEmpty
        · rw [if_pos hemp] at hf
          exact absurd hf (by simp)
        · rw [if_neg hemp] at hf
          refine ⟨i, hnl, by rw [hd, hcm]; rfl, ?_, ?_⟩
          · rw [hrest]
            exact Bool.eq_false_iff.mpr hemp
          · rw [hrest, ← matchThe_isSome_eq, hf]
            rfl
      · rw [if_neg hcm] at hf
        exact absurd hf (by simp)
  · rintro ⟨i, hnl, hhd, hne, hthe⟩
    cases hm : matchComma title.data with
    | some p => simp
    | none =>
      exfalso
      have hall := (greedyScan_eq_none_iff commaThe title.data []).1 hm
      cases hd : title.data.drop i with
      | nil => rw [hd] at hhd; exact Option.noConfusion hhd
      | cons c rest =>
        rw [hd] at hhd
        have hc : c = ',' := by simpa using hhd
        have hi := hall i
        rw [hitAt_eq_of commaThe title.data i c rest hnl hd, hc] at hi
        have hrest := drop_succ_of_drop title.data i c rest hd
        rw [hrest] at hne hthe
        unfold commaThe at hi
        rw [if_pos rfl, matchWsThe_eq, hne] at hi
        simp only [Bool.false_eq_true, if_false] at hi
        rw [← matchThe_isSome_eq, hi] at hthe
        exact Bool.noConfusion hthe

/-- C4 amended: the two rewrites are mutually inverse exactly on the
single-space matched forms: for any casing of the word the and any
newline-free core that does not begin with whitespace, the extractor
rewrite maps core-comma-space-the to the-space-core, the set_title
rewrite maps it back, and both composites are the identity on these
forms.  (Outside these forms - extra whitespace, trailing text after the
article, or newlines - the round trip can differ, as the counterexample
shows.) -/
theorem title_rewrites_inverse_on_single_space_forms
    (core theTxt : String)
    (h1 : theTxt ∈ theCasings)
    (h2 : '\n' ∉ core.data)
    (h3 : headNotSpace core.data = true) :
    optional_title_rewrite (core ++ ", " ++ theTxt) = theTxt ++ " " ++ core
    ∧ title_writing_rewrite (theTxt ++ " " ++ core) = core ++ ", " ++ theTxt
    ∧ optional_title_rewrite (title_writing_rewrite (theTxt ++ " " ++ core))
        = theTxt ++ " " ++ core
    ∧ title_writing_rewrite (optional_title_rewrite (core ++ ", " ++ theTxt))
        = core ++ ", " ++ theTxt := by
  have hws : matchWsThe (' ' :: theTxt.data) = some theTxt.data := by
    fin_cases h1 <;> decide
  have hnc : ',' ∉ theTxt.data := by
    fin_cases h1 <;> decide
  have hshape : ∃ a b c, theTxt.data = [a, b, c]
      ∧ (a.toLower == 't' && b.toLower == 'h' && c.toLower == 'e') = true := by
    fin_cases h1 <;> exact ⟨_, _, _, rfl, by decide⟩
  obtain ⟨a, b, c, hdata3, hcond⟩ := hshape
  have hA : matchComma ((core ++ ", " ++ theTxt).data) = some (core.data, theTxt.data) := by
    have hdata : (core ++ ", " ++ theTxt).data = core.data ++ ',' :: ' ' :: theTxt.data := by
      rw [data_append, data_append]
      simp
    have hmain := matchComma_append_the theTxt.data hws hnc core.data [] h2
    rw [matchComma, hdata]
    simpa using hmain
  have hB : titleWritingMatch ((theTxt ++ " " ++ core).data) = some (theTxt.data, core.data) := by
    have hdata : (theTxt ++ " " ++ core).data = a :: b :: c :: ' ' :: core.data := by
      rw [data_append, data_append, hdata3]
      rfl
    rw [hdata, hdata3]
    exact titleWritingMatch_append a b c core.data hcond h2 h3
  have e1 : optional_title_rewrite (core ++ ", " ++ theTxt) = theTxt ++ " " ++ core := by
    unfold optional_title_rewrite
    rw [hA]
  have e2 : title_writing_rewrite (theTxt ++ " " ++ core) = core ++ ", " ++ theTxt := by
    unfold title_writing_rewrite
    rw [hB]
  exact ⟨e1, e2, by rw [e2]; exact e1, by rw [e1]; exact e2⟩

/-- C4 witness: the round trip on the concrete pair Matrix and The. -/
theorem title_rewrites_inverse_witness :
    ("The" : String) ∈ theCasings
    ∧ '\n' ∉ ("Matrix" : String).data
    ∧ headNotSpace ("Matrix" : String).data = true
    ∧ optional_title_rewrite ("Matrix" ++ ", " ++ "The") = "The" ++ " " ++ "Matrix"
    ∧ title_writing_rewrite ("The" ++ " " ++ "Matrix") = "Matrix" ++ ", " ++ "The" := by
  refine ⟨by decide, by decide, by decide, ?_, ?_⟩
  · exact (title_rewrites_inverse_on_single_space_forms "Matrix" "The"
      (by decide) (by decide) (by decide)).1
  · exact (title_rewrites_inverse_on_single_space_forms "Matrix" "The"
      (by decide) (by decide) (by decide)).2.1

/-- C10: a successful match of the dirname pattern picks the last opening
parenthesis (reachable without a newline) from which the interior pattern
can complete - the title group is everything before it - and, inside, the
last four-digit run that still has a reachable closing parenthesis after
it; the two concrete instances show the year coming from the last group
and the last digit run. -/
theorem dirname_parse_greedy (l g1 g2 : List Char)
    (h : matchTitleParen l = some (g1, g2)) :
    (∃ i, '\n' ∉ l.take i
       ∧ (l.drop i).head? = some '('
       ∧ g1 = l.take i
       ∧ (∀ j, i < j → hitAt parenYear l j = none)
       ∧ ∃ k, '\n' ∉ (l.drop (i + 1)).take k
          ∧ ((l.drop (i + 1)).drop k).take 4 = g2
          ∧ g2.all Char.isDigit = true
          ∧ (((l.drop (i + 1)).drop (k + 4)).takeWhile (fun x => x != '\n')).contains ')' = true
          ∧ ∀ j, k < j → hitAt yearF (l.drop (i + 1)) j = none)
    ∧ dirnameParseStage "Movie (1984) (2020)" = ("Movie (1984)", some 2020)
    ∧ dirnameParseStage "Movie (1984 2020)" = ("Movie", some 2020) := by
  refine ⟨?_, by decide, by decide⟩
  obtain ⟨i, h1, h2, h3⟩ := greedyScan_eq_some parenYear l [] g1 g2 h
  obtain ⟨hnl, c, rest, hd, hf⟩ := hitAt_eq_some parenYear l i g2 h1
  unfold parenYear at hf
  by_cases hcp : c = '('
  · rw [if_pos hcp] at hf
    have hrest := drop_succ_of_drop l i c rest hd
    unfold matchYearInner at hf
    cases hs : greedyScan yearF [] rest with
    | none => rw [hs] at hf; exact absurd hf (by simp)
    | some p =>
      rw [hs] at hf
      obtain ⟨gx, a⟩ := p
      have ha : a = g2 := by simpa using hf
      obtain ⟨k, hk1, _, hk3⟩ := greedyScan_eq_some yearF rest [] gx a hs
      obtain ⟨hnl2, c2, r2, hd2, hf2⟩ := hitAt_eq_some yearF rest k a hk1
      unfold yearF at hf2
      cases r2 with
      | nil => exact absurd hf2 (by simp [matchFourDigits])
      | cons b1 r3 =>
        cases r3 with
        | nil => exact absurd hf2 (by simp [matchFourDigits])
        | cons c1 r4 =>
          cases r4 with
          | nil => exact absurd hf2 (by simp [matchFourDigits])
          | cons d1 r5 =>
            simp only [matchFourDigits] at hf2
            by_cases hcond : (c2.isDigit && b1.isDigit && c1.isDigit && d1.isDigit
                && ((r5.takeWhile (fun x => x != '\n')).contains ')')) = true
            · rw [if_pos hcond] at hf2
              have hag : [c2, b1, c1, d1] = a := by simpa using hf2
              have hcond2 : c2.isDigit = true ∧ b1.isDigit = true ∧ c1.isDigit = true
                  ∧ d1.isDigit = true
                  ∧ ((r5.takeWhile (fun x => x != '\n')).contains ')') = true := by
                simpa [and_assoc] using hcond
              have hr5 : rest.drop (k + 4) = r5 := by
                have hdd := List.drop_drop 4 k rest
                rw [hd2] at hdd
                simpa using hdd.symm
              refine ⟨i, hnl, by rw [hd, hcp]; rfl, by simpa using h2, h3, k, ?_, ?_, ?_, ?_, ?_⟩
              · rw [hrest]
                exact hnl2
              · rw [hrest, hd2, ← ha, ← hag]
                rfl
              · rw [← ha, ← hag]
                simp [hcond2.1, hcond2.2.1, hcond2.2.2.1, hcond2.2.2.2.1]
              · rw [hrest, hr5]
                exact hcond2.2.2.2.2
              · intro j hj
                rw [hrest]
                exact hk3 j hj
            · rw [if_neg hcond] at hf2
              exact absurd hf2 (by simp)
  · rw [if_neg hcp] at hf
    exact absurd hf (by simp)

/-- C10 witness: the characterisation applied to a dirname whose last
parenthesised group has no digits, so the year comes from the earlier
group. -/
theorem dirname_parse_greedy_witness :
    matchTitleParen ("A (1984) (x)").data = some (("A ").data, ("1984").data)
    ∧ (∃ i, '\n' ∉ ("A (1984) (x)").data.take i
        ∧ (("A (1984) (x)").data.drop i).head? = some '('
        ∧ ("A ").data = ("A (1984) (x)").data.take i
        ∧ (∀ j, i < j → hitAt parenYear ("A (1984) (x)").data j = none)
        ∧ ∃ k, '\n' ∉ (("A (1984) (x)").data.drop (i + 1)).take k
            ∧ ((("A (1984) (x)").data.drop (i + 1)).drop k).take 4 = ("1984").data
            ∧ ("1984").data.all Char.isDigit = true
            ∧ (((("A (1984) (x)").data.drop (i + 1)).drop (k + 4)).takeWhile
                (fun x => x != '\n')).contains ')' = true
            ∧ ∀ j, k < j → hitAt yearF (("A (1984) (x)").data.drop (i + 1)) j = none) := by
  refine ⟨by decide, ?_⟩
  exact (dirname_parse_greedy ("A (1984) (x)").data ("A ").data ("1984").data (by decide)).1

/-- C5: with an override record present, the reconciler depends only on
the detail-lookup collaborator - not on the search collaborator or the
prompts (so it reuses the stored id and stored title and performs no
title/year search); and when a first, override-free run wrote an override,
a second run with that override present (same, id-consistent provider)
returns exactly the same movie, hence a byte-identical label. -/
theorem get_movie_for_dir_override_contract
    (db : CountryDb) (env1 env2 : RunEnv) (mc : MovieConfig) (d : String)
    (m1 : Movie) (mc1 : MovieConfig)
    (hdet : env1.details = env2.details)
    (hcons : ∀ oid j, env1.details oid = some j → env1.details j.imdbID = some j)
    (hrun : get_movie_for_dir db env1 true none d = Except.ok (some m1, some mc1)) :
    get_movie_for_dir db env1 true (some mc) d = get_movie_for_dir db env2 true (some mc) d
    ∧ get_movie_for_dir db env2 true (some mc1) d = Except.ok (some m1, none) := by
  constructor
  · simp only [get_movie_for_dir, hdet]
  · simp only [get_movie_for_dir] at hrun
    cases hff : Movie.from_filename db env1.search env1.details d with
    | some m =>
      rw [hff] at hrun
      simp at hrun
    | none =>
      cases hp : prompt_imdb_id db env1 with
      | none =>
        rw [hff, hp] at hrun
        simp at hrun
      | some m =>
        rw [hff, hp] at hrun
        simp only [Except.ok.injEq, Prod.mk.injEq, Option.some.injEq] at hrun
        obtain ⟨hm1, hmc1⟩ := hrun
        simp only [prompt_imdb_id] at hp
        cases hpid : env1.promptedId with
        | none =>
          simp only [hpid] at hp
          simp at hp
        | some pid =>
          simp only [hpid] at hp
          cases hdj : env1.details (some pid) with
          | none =>
            simp only [hdj] at hp
            simp at hp
          | some j =>
            simp only [hdj] at hp
            cases hfj : Movie.from_json db j with
            | error e =>
              simp only [hfj] at hp
              simp at hp
            | ok m0 =>
              simp only [hfj] at hp
              simp only [Option.some.injEq] at hp
              have hm : m = m0.expand_details_from_json db j := hp.symm
              subst hm
              have himdb : (Movie.expand_details_from_json db m0 j).imdb_id = j.imdbID := by
                rw [expand_imdb]
                exact from_json_imdb db j m0 hfj
              have hmc1_id : mc1.imdb_id = j.imdbID := by
                rw [← hmc1]
                simp only [set_title_m_imdb]
                exact himdb
              have hmc1_title : mc1.title
                  = some (env1.chosenTitle (Movie.expand_details_from_json db m0 j).title
                      (extract_info_from_dirname d).fst) := by
                rw [← hmc1]
              have hdet2 : env2.details j.imdbID = some j := by
                rw [← hdet]
                exact hcons (some pid) j hdj
              have hfi : Movie.from_imdb_id db env2.details mc1.imdb_id
                  = Except.ok (some (Movie.expand_details_from_json db m0 j)) := by
                rw [hmc1_id]
                simp only [Movie.from_imdb_id, hdet2, hfj]
              simp only [get_movie_for_dir, hfi, hmc1_title]
              rw [hm1]

/-- C5 witness: the override contract on a concrete scenario - a first
run that resolves via the prompt and writes the override, then a second
run with the override present under an environment with a different
search collaborator and different prompts. -/
theorem get_movie_for_dir_override_contract_witness :
    (∀ oid j, env0.details oid = some j → env0.details j.imdbID = some j)
    ∧ env0.details = env0x.details
    ∧ get_movie_for_dir db0 env0 true none "D" = Except.ok (some m1c, some mc1c)
    ∧ get_movie_for_dir db0 env0 true (some mcX) "D"
        = get_movie_for_dir db0 env0x true (some mcX) "D"
    ∧ get_movie_for_dir db0 env0x true (some mc1c) "D" = Except.ok (some m1c, none) := by
  have hcons0 : ∀ oid j, env0.details oid = some j → env0.details j.imdbID = some j := by
    intro oid j h
    simp only [env0] at h ⊢
    by_cases hid : oid = some "tt1"
    · rw [if_pos hid] at h
      obtain rfl : j0 = j := by simpa using h
      simp [j0]
    · rw [if_neg hid] at h
      exact Option.noConfusion h
  have hdet0 : env0.details = env0x.details := rfl
  have hrun0 : get_movie_for_dir db0 env0 true none "D" = Except.ok (some m1c, some mc1c) := by
    decide
  have hmain := get_movie_for_dir_override_contract db0 env0 env0x mcX "D" m1c mc1c
    hdet0 hcons0 hrun0
  exact ⟨hcons0, hdet0, hrun0, hmain.1, hmain.2⟩
